import Mathlib

/-!
# libbcrypt wrapper layer (`bcrypt.c`): shallow embedding and verified properties

The C file `bcrypt.c` is a thin contract layer over external collaborators
(`getentropy`, `crypt_gensalt_rn`, `crypt_rn`, `sha512_calc`,
`FIPS202_SHA3_512`, `base64_calc`).  The embedding below keeps the functions
of `bcrypt.c` as they are written and takes the collaborators, together with
the constants of the absent header `bcrypt.h`, as fields of a record.

Conventions of the embedding

* a byte (`unsigned char`) is a `Fin 256`;
* a `char` buffer is a `List Byte`; the list is followed by a NUL terminator,
  so `strlen` counts the bytes before the first zero byte (or the whole list);
* `int` values are `Int`; the one narrowing conversion of the file
  (`int len = strlen(..)`) is the explicit two's-complement wrap `toInt32`;
* every function returns, next to its C result, the contents of the buffers it
  writes and the log of the external calls it makes, in order.
-/

namespace Bcrypt

/-- A byte, the value of an `unsigned char`. -/
abbrev Byte := Fin 256

/-- The value of `RANDBYTES`. -/
def RANDBYTES : Nat := 16

/-- The value of `BYTES_IN_512BITS`. -/
def BYTES_IN_512BITS : Nat := 64

/-- The string literal `"$2a$"` handed to `crypt_gensalt_rn`. -/
def tag2a : List Byte := [36, 50, 97, 36]

/-- The C library `strlen`: the number of bytes before the first NUL byte. -/
def strlen (s : List Byte) : Nat := (s.takeWhile (fun c => c ≠ 0)).length

/-- The text of a buffer read as a C string: the bytes before the first NUL. -/
def cstr (s : List Byte) : List Byte := s.takeWhile (fun c => c ≠ 0)

/-- The read `a[i]` through an `unsigned char` pointer, promoted to `int`
(a value in `0..255`); the byte after the end of the list is the terminator. -/
def byteAt (s : List Byte) (i : Nat) : Nat := (s.getD i 0).val

/-- Conversion of a `size_t` value to `int` (two's-complement wrap to 32 bits),
as in `int len1 = strlen(str1);`. -/
def toInt32 (n : Nat) : Int :=
  if n % 2 ^ 32 < 2 ^ 31 then ((n % 2 ^ 32 : Nat) : Int) else ((n % 2 ^ 32 : Nat) : Int) - 2 ^ 32

/-- The loop `for (i = 0; i < len1; ++i) ret |= (a[i] ^ b[i]);` of
`timing_safe_strcmp`, from the loop state `(i, ret)`.  The third argument
accumulates the indices read so far; the result is the final `ret` and the
indices read, in order.  `ret` only ever holds values in `0..255`, so the `int`
accumulator is kept as a natural number. -/
def xorLoop (a b : List Byte) (len1 : Int) (i : Nat) (ret : Nat) (reads : List Nat) :
    Nat × List Nat :=
  if (i : Int) < len1 then
    xorLoop a b len1 (i + 1) (ret ||| (byteAt a i ^^^ byteAt b i)) (reads ++ [i])
  else
    (ret, reads)
termination_by (len1 - (i : Int)).toNat
decreasing_by omega

/-- The function `timing_safe_strcmp`, instrumented: the returned `int` and the
list of indices at which the loop read a byte pair. -/
def timing_safe_strcmp_run (str1 str2 : List Byte) : Int × List Nat :=
  let len1 := toInt32 (strlen str1)
  let len2 := toInt32 (strlen str2)
  if len1 ≠ len2 then
    (1, [])
  else
    let r := xorLoop str1 str2 len1 0 0 []
    ((r.1 : Int), r.2)

/-- The function `timing_safe_strcmp`: its return value. -/
def timing_safe_strcmp (str1 str2 : List Byte) : Int :=
  (timing_safe_strcmp_run str1 str2).1

/-- The bitwise OR of `a[i] ^ b[i]` over the `k` indices `i, i+1, ..`. -/
def orXorFrom (a b : List Byte) (i : Nat) : Nat → Nat
  | 0 => 0
  | k + 1 => (byteAt a i ^^^ byteAt b i) ||| orXorFrom a b (i + 1) k

/-- The result of an external function that returns a `char *`: whether the
returned pointer is `NULL`, and the contents of its output buffer when the call
returns. -/
structure PtrResult where
  isNull : Bool
  buf : List Byte
deriving DecidableEq

/-- One call of an external collaborator, with the arguments it receives. -/
inductive Call where
  | getentropy (length : Nat)
  | crypt_gensalt_rn (pfx : List Byte) (count : Int) (input : List Byte) (size : Int)
      (output_size : Int)
  | crypt_rn (key setting : List Byte) (size : Int)
  | sha512_calc (msg : List Byte) (length : Nat)
  | FIPS202_SHA3_512 (msg : List Byte) (inLen : Nat)
  | base64_calc (data : List Byte) (length : Nat)
deriving DecidableEq

/-- What `bcrypt.c` takes from outside: the constants of `bcrypt.h` and
`limits.h`, and the external functions.  Each external function is given by its
result as a function of the arguments of the call.

* `getentropy length`: the returned `int` and the contents of the buffer after
  the call;
* `crypt_gensalt_rn pfx count input size output_size`, `crypt_rn key setting size`:
  the returned pointer and the contents of the output buffer;
* `sha512_calc msg length`, `FIPS202_SHA3_512 msg inLen`: the contents of the
  64-byte digest buffer after the call;
* `base64_calc data length`: the contents of the output buffer after the call. -/
structure Externals where
  BCRYPT_HASHSIZE : Int
  BCRYPT_DEFAULT_WORK_FACTOR : Int
  SIZE_MAX : Nat
  ULONG_MAX : Nat
  ULLONG_MAX : Nat
  getentropy : Nat → Int × List Byte
  crypt_gensalt_rn : List Byte → Int → List Byte → Int → Int → PtrResult
  crypt_rn : List Byte → List Byte → Int → PtrResult
  sha512_calc : List Byte → Nat → List Byte
  FIPS202_SHA3_512 : List Byte → Nat → List Byte
  base64_calc : List Byte → Nat → List Byte

/-- The outcome of a function that returns an `int` and writes one buffer. -/
structure BufResult where
  ret : Int
  buf : List Byte
  calls : List Call
deriving DecidableEq

/-- The outcome of `bcrypt_checkpw`. -/
structure CheckResult where
  ret : Int
  calls : List Call
deriving DecidableEq

/-- The expression `(factor < 4 || factor > 31)?BCRYPT_DEFAULT_WORK_FACTOR:factor`. -/
def workFactor (X : Externals) (factor : Int) : Int :=
  if factor < 4 ∨ factor > 31 then X.BCRYPT_DEFAULT_WORK_FACTOR else factor

/-- The function `bcrypt_gensalt`; `salt` is the contents of the caller's
buffer before the call, `buf` of the result its contents after. -/
def bcrypt_gensalt (X : Externals) (factor : Int) (salt : List Byte) : BufResult :=
  let e := X.getentropy RANDBYTES
  if e.1 ≠ 0 then
    ⟨1, salt, [Call.getentropy RANDBYTES]⟩
  else
    let workf := workFactor X factor
    let aux := X.crypt_gensalt_rn tag2a workf e.2 RANDBYTES X.BCRYPT_HASHSIZE
    ⟨if aux.isNull then 2 else 0, aux.buf,
      [Call.getentropy RANDBYTES,
       Call.crypt_gensalt_rn tag2a workf e.2 RANDBYTES X.BCRYPT_HASHSIZE]⟩

/-- The function `bcrypt_hashpw`; `buf` of the result is the contents of `hash`
after the call. -/
def bcrypt_hashpw (X : Externals) (passwd salt : List Byte) : BufResult :=
  let aux := X.crypt_rn passwd salt X.BCRYPT_HASHSIZE
  ⟨if aux.isNull then 1 else 0, aux.buf, [Call.crypt_rn passwd salt X.BCRYPT_HASHSIZE]⟩

/-- The function `bcrypt_checkpw`. -/
def bcrypt_checkpw (X : Externals) (passwd hash : List Byte) : CheckResult :=
  let r := bcrypt_hashpw X passwd hash
  if r.ret ≠ 0 then
    ⟨-1, r.calls⟩
  else
    ⟨timing_safe_strcmp hash r.buf, r.calls⟩

/-- The function `bcrypt_sha512_base64`; `digest` is the contents of the
caller's buffer before the call.  The cast `(unsigned long)len` reduces modulo
`ULONG_MAX + 1`. -/
def bcrypt_sha512_base64 (X : Externals) (inp digest : List Byte) : BufResult :=
  let len := strlen inp
  if len > X.ULONG_MAX then
    ⟨1, digest, []⟩
  else
    let bindigest := X.sha512_calc inp (len % (X.ULONG_MAX + 1))
    ⟨0, X.base64_calc bindigest BYTES_IN_512BITS,
      [Call.sha512_calc inp (len % (X.ULONG_MAX + 1)),
       Call.base64_calc bindigest BYTES_IN_512BITS]⟩

/-- The function `bcrypt_sha3_512_base64`.  The cast `(u64)len` reduces modulo
`ULLONG_MAX + 1` (`u64` is `unsigned long long` in `keccak.h`). -/
def bcrypt_sha3_512_base64 (X : Externals) (inp digest : List Byte) : BufResult :=
  let len := strlen inp
  if len > X.ULLONG_MAX then
    ⟨1, digest, []⟩
  else
    let bindigest := X.FIPS202_SHA3_512 inp (len % (X.ULLONG_MAX + 1))
    ⟨0, X.base64_calc bindigest BYTES_IN_512BITS,
      [Call.FIPS202_SHA3_512 inp (len % (X.ULLONG_MAX + 1)),
       Call.base64_calc bindigest BYTES_IN_512BITS]⟩

/-! ## Contract of the adaptive hash primitive -/

/-- The contract of `crypt_rn` under which verification round-trips: when
hashing `p` under any setting succeeds with output `h`, hashing `p` with `h` as
the setting re-derives the salt from the prefix of `h` and succeeds with the
same text. -/
def RederivesSalt (X : Externals) : Prop :=
  ∀ p s : List Byte, (X.crypt_rn p s X.BCRYPT_HASHSIZE).isNull = false →
    (X.crypt_rn p (X.crypt_rn p s X.BCRYPT_HASHSIZE).buf X.BCRYPT_HASHSIZE).isNull = false ∧
    cstr (X.crypt_rn p (X.crypt_rn p s X.BCRYPT_HASHSIZE).buf X.BCRYPT_HASHSIZE).buf
      = cstr (X.crypt_rn p s X.BCRYPT_HASHSIZE).buf

/-! ## A reference instance of the external collaborators

The instance below follows the input/output contracts that the specification
gives for the collaborators.  It is used to exhibit concrete runs. -/

/-- The byte with value `n mod 256`. -/
def byteOf (n : Nat) : Byte := ⟨n % 256, Nat.mod_lt n (by decide)⟩

/-- A printable letter derived from a byte. -/
def letterOf (b : Byte) : Byte := byteOf (65 + b.val % 26)

/-- Whether a byte is an ASCII decimal digit. -/
def isDigit (b : Byte) : Bool := decide (48 ≤ b.val ∧ b.val ≤ 57)

/-- Modelled from the spec: `crypt_gensalt_rn` of crypt_blowfish (absent from
the sources), section 6 `format_salt(work_factor, random_bytes) -> text`:
the descriptor is the tag, the two-digit work factor, `$`, and 22 printable
characters derived from the 16 random bytes; failure (NULL) on a bad tag, work
factor, input size or output size. -/
def model_crypt_gensalt_rn (pfx : List Byte) (count : Int) (input : List Byte) (size : Int)
    (output_size : Int) : PtrResult :=
  if pfx = tag2a ∧ 4 ≤ count ∧ count ≤ 31 ∧ 16 ≤ size ∧ 30 ≤ output_size then
    ⟨false, pfx ++ [byteOf (48 + count.toNat / 10), byteOf (48 + count.toNat % 10), 36]
      ++ ((input.take 16 ++ List.replicate 22 0).take 22).map letterOf⟩
  else
    ⟨true, []⟩

/-- Modelled from the spec: `crypt_rn` of crypt_blowfish (absent from the
sources), sections 2, 4.3 and 6 `hash(password, salt_or_stored_hash) ->
Optional<text>`: the salt descriptor is re-derived from the 29-character prefix
of the setting; the output is that descriptor followed by 31 characters
computed from the password and the descriptor, 60 characters in all; failure
(NULL) on an unsupported tag, a malformed descriptor or too small a buffer. -/
def model_crypt_rn (key setting : List Byte) (size : Int) : PtrResult :=
  let d := (cstr setting).take 29
  if d.length = 29 ∧ d.take 4 = tag2a ∧ isDigit (d.getD 4 0) = true ∧ isDigit (d.getD 5 0) = true
      ∧ d.getD 6 0 = 36 ∧ 61 ≤ size then
    ⟨false, d ++
      List.replicate 31 (letterOf (byteOf (((cstr key).map Fin.val).sum + (d.map Fin.val).sum)))⟩
  else
    ⟨true, [42, 48]⟩

/-- Modelled from the spec: the digest primitives `sha512_calc` and
`FIPS202_SHA3_512` (absent from the sources), section 6 `digest(input, length)
-> byte[64]`: a deterministic 64-byte value computed from the first `length`
bytes of the input; `seed` separates the two families. -/
def model_digest (seed : Nat) (msg : List Byte) (length : Nat) : List Byte :=
  (List.range 64).map (fun i => byteOf (seed + i + ((msg.take length).map Fin.val).sum))

/-- Modelled from the spec: the text encoder `base64_calc` (absent from the
sources), section 6 `encode(bytes, length) -> text`: four printable characters
for every group of three input bytes. -/
def model_base64_calc (data : List Byte) (length : Nat) : List Byte :=
  (List.range (4 * ((length + 2) / 3))).map (fun i => letterOf (data.getD (3 * i / 4) 0))

/-- The reference instance: `BCRYPT_HASHSIZE` 64, default work factor 10
(section 4.1 of the specification), 64-bit `size_t`, `unsigned long` and
`unsigned long long`, an entropy source that succeeds. -/
def modelX : Externals where
  BCRYPT_HASHSIZE := 64
  BCRYPT_DEFAULT_WORK_FACTOR := 10
  SIZE_MAX := 2 ^ 64 - 1
  ULONG_MAX := 2 ^ 64 - 1
  ULLONG_MAX := 2 ^ 64 - 1
  getentropy := fun n => (0, (List.range n).map (fun i => byteOf (7 * i + 3)))
  crypt_gensalt_rn := model_crypt_gensalt_rn
  crypt_rn := model_crypt_rn
  sha512_calc := model_digest 1
  FIPS202_SHA3_512 := model_digest 2
  base64_calc := model_base64_calc

/-- The reference instance with a failing entropy source. -/
def modelX_noEntropy : Externals :=
  { modelX with getentropy := fun n => (-1, List.replicate n 0) }

/-- The password `"pw"`. -/
def pw : List Byte := [112, 119]

/-- A salt generated under the reference instance with work factor 12. -/
def goodSalt : List Byte := (bcrypt_gensalt modelX 12 []).buf

/-- The hash of `"pw"` under `goodSalt` in the reference instance. -/
def goodHash : List Byte := (bcrypt_hashpw modelX pw goodSalt).buf

/-- A stored hash of wrong length: `goodHash` with one more character. -/
def longHash : List Byte := goodHash ++ [65]

/-- A stored hash whose algorithm tag is corrupted: `goodHash` with its first
character replaced. -/
def badTagHash : List Byte := 35 :: goodHash.tail

theorem nat_or_eq_zero (x y : Nat) : x ||| y = 0 ↔ x = 0 ∧ y = 0 := by
  constructor
  · intro h
    constructor
    · apply Nat.eq_of_testBit_eq
      intro i
      have := congrArg (fun z => Nat.testBit z i) h
      simp [Nat.testBit_or] at this
      simp [this.1]
    · apply Nat.eq_of_testBit_eq
      intro i
      have := congrArg (fun z => Nat.testBit z i) h
      simp [Nat.testBit_or] at this
      simp [this.2]
  · rintro ⟨rfl, rfl⟩
    simp

theorem byteAt_lt (s : List Byte) (i : Nat) : byteAt s i < 2 ^ 8 := by
  unfold byteAt
  exact (s.getD i 0).isLt

theorem xorLoop_eq (a b : List Byte) (n : Nat) :
    ∀ (k i ret : Nat) (reads : List Nat), i + k = n →
      xorLoop a b (n : Int) i ret reads
        = (ret ||| orXorFrom a b i k, reads ++ List.range' i k) := by
  intro k
  induction k with
  | zero =>
    intro i ret reads h
    rw [xorLoop]
    have : ¬ ((i : Int) < (n : Int)) := by omega
    simp [this, orXorFrom]
  | succ k ih =>
    intro i ret reads h
    rw [xorLoop]
    have : (i : Int) < (n : Int) := by omega
    rw [if_pos this, ih (i + 1) _ _ (by omega)]
    simp [orXorFrom, Nat.or_assoc, List.range']

theorem xorLoop_nonpos (a b : List Byte) (len1 : Int) (h : len1 ≤ 0)
    (i ret : Nat) (reads : List Nat) : xorLoop a b len1 i ret reads = (ret, reads) := by
  rw [xorLoop]
  have : ¬ ((i : Int) < len1) := by omega
  simp [this]

theorem orXorFrom_lt (a b : List Byte) : ∀ (k i : Nat), orXorFrom a b i k < 2 ^ 8 := by
  intro k
  induction k with
  | zero => intro i; simp [orXorFrom]
  | succ k ih =>
    intro i
    simp only [orXorFrom]
    exact Nat.or_lt_two_pow (Nat.xor_lt_two_pow (byteAt_lt a i) (byteAt_lt b i)) (ih (i + 1))

theorem orXorFrom_eq_zero (a b : List Byte) :
    ∀ (k i : Nat), orXorFrom a b i k = 0 ↔ ∀ j, i ≤ j → j < i + k → byteAt a j = byteAt b j := by
  intro k
  induction k with
  | zero => intro i; simp [orXorFrom]; intro j h1 h2; omega
  | succ k ih =>
    intro i
    simp only [orXorFrom, nat_or_eq_zero, Nat.xor_eq_zero, ih (i + 1)]
    constructor
    · rintro ⟨h0, h1⟩ j hj1 hj2
      by_cases hji : j = i
      · subst hji; exact h0
      · exact h1 j (by omega) (by omega)
    · intro h
      exact ⟨h i (Nat.le_refl _) (by omega), fun j hj1 hj2 => h j (by omega) (by omega)⟩

theorem toInt32_of_lt (n : Nat) (h : n < 2 ^ 31) : toInt32 n = (n : Int) := by
  unfold toInt32
  have h1 : n % 2 ^ 32 = n := Nat.mod_eq_of_lt (by omega)
  rw [h1, if_pos h]

theorem getD_takeWhile (p : Byte → Bool) (l : List Byte) :
    ∀ j, j < (l.takeWhile p).length → (l.takeWhile p).getD j 0 = l.getD j 0 := by
  induction l with
  | nil => intro j h; simp
  | cons x xs ih =>
    intro j h
    by_cases hp : p x = true
    · rw [List.takeWhile_cons_of_pos hp] at h ⊢
      cases j with
      | zero => simp
      | succ j =>
        simp only [List.getD_cons_succ]
        exact ih j (by simpa using h)
    · rw [List.takeWhile_cons_of_neg hp] at h
      simp at h

theorem byteAt_cstr (s : List Byte) (j : Nat) (h : j < strlen s) :
    byteAt (cstr s) j = byteAt s j := by
  unfold byteAt cstr
  rw [getD_takeWhile _ s j h]

theorem length_cstr (s : List Byte) : (cstr s).length = strlen s := rfl

theorem byteAt_eq_iff (a b : List Byte) (j : Nat) :
    byteAt a j = byteAt b j ↔ a.getD j 0 = b.getD j 0 := by
  unfold byteAt
  exact Fin.val_inj

theorem cstr_eq_iff (a b : List Byte) :
    cstr a = cstr b ↔ strlen a = strlen b ∧ ∀ j, j < strlen a → byteAt a j = byteAt b j := by
  constructor
  · intro h
    have hl : strlen a = strlen b := by rw [← length_cstr, ← length_cstr, h]
    refine ⟨hl, fun j hj => ?_⟩
    rw [← byteAt_cstr a j hj, ← byteAt_cstr b j (hl ▸ hj), h]
  · rintro ⟨hl, hb⟩
    apply List.ext_getElem
    · exact hl
    · intro n h1 h2
      have h1' : n < strlen a := h1
      have h2' : n < strlen b := h2
      have := hb n h1'
      rw [← byteAt_cstr a n h1', ← byteAt_cstr b n h2', byteAt_eq_iff] at this
      rwa [List.getD_eq_getElem _ _ h1, List.getD_eq_getElem _ _ h2] at this

theorem run_of_len_ne (a b : List Byte) (ha : strlen a < 2 ^ 31) (hb : strlen b < 2 ^ 31)
    (h : strlen a ≠ strlen b) : timing_safe_strcmp_run a b = (1, []) := by
  unfold timing_safe_strcmp_run
  rw [toInt32_of_lt _ ha, toInt32_of_lt _ hb]
  have : ((strlen a : Nat) : Int) ≠ ((strlen b : Nat) : Int) := by omega
  simp [this]

theorem run_of_len_eq (a b : List Byte) (ha : strlen a < 2 ^ 31) (h : strlen a = strlen b) :
    timing_safe_strcmp_run a b
      = (((orXorFrom a b 0 (strlen a) : Nat) : Int), List.range (strlen a)) := by
  unfold timing_safe_strcmp_run
  rw [← h, toInt32_of_lt _ ha]
  simp only [ne_eq, not_true_eq_false, if_false]
  rw [xorLoop_eq a b (strlen a) (strlen a) 0 0 [] (by omega)]
  simp [List.range_eq_range']

theorem strcmp_eq_zero_iff (a b : List Byte) (ha : strlen a < 2 ^ 31) (hb : strlen b < 2 ^ 31) :
    timing_safe_strcmp a b = 0 ↔ cstr a = cstr b := by
  unfold timing_safe_strcmp
  rw [cstr_eq_iff]
  by_cases h : strlen a = strlen b
  · rw [run_of_len_eq a b ha h]
    simp only [Int.natCast_eq_zero, orXorFrom_eq_zero, h, true_and]
    constructor
    · intro hh j hj; exact hh j (Nat.zero_le _) (by omega)
    · intro hh j _ hj; exact hh j (by omega)
  · rw [run_of_len_ne a b ha hb h]
    simp [h]

theorem strcmp_range (a b : List Byte) (ha : strlen a < 2 ^ 31) (hb : strlen b < 2 ^ 31) :
    0 ≤ timing_safe_strcmp a b ∧ timing_safe_strcmp a b ≤ 255 := by
  unfold timing_safe_strcmp
  by_cases h : strlen a = strlen b
  · rw [run_of_len_eq a b ha h]
    have := orXorFrom_lt a b (strlen a) 0
    simp only
    omega
  · rw [run_of_len_ne a b ha hb h]
    simp

theorem toInt32_le (n : Nat) : toInt32 n ≤ (n : Int) := by
  unfold toInt32
  have h1 : n % 2 ^ 32 ≤ n := Nat.mod_le _ _
  split <;> omega

theorem strcmp_nonneg (a b : List Byte) : 0 ≤ timing_safe_strcmp a b := by
  unfold timing_safe_strcmp timing_safe_strcmp_run
  simp only
  split
  · simp
  · exact Int.natCast_nonneg _

theorem strcmp_of_cstr_eq (a b : List Byte) (h : cstr a = cstr b) :
    timing_safe_strcmp a b = 0 := by
  obtain ⟨hl, hb⟩ := (cstr_eq_iff a b).1 h
  unfold timing_safe_strcmp timing_safe_strcmp_run
  simp only [hl, ne_eq, not_true_eq_false, if_false]
  by_cases hpos : toInt32 (strlen b) ≤ 0
  · rw [xorLoop_nonpos _ _ _ hpos]
    simp
  · obtain ⟨m, hm⟩ := Int.eq_ofNat_of_zero_le (by omega : 0 ≤ toInt32 (strlen b))
    have hle := toInt32_le (strlen b)
    rw [hm, xorLoop_eq a b m m 0 0 [] (by omega)]
    simp only [Nat.zero_or, Int.natCast_eq_zero, orXorFrom_eq_zero]
    intro j _ hj
    exact hb j (by omega)

theorem hashpw_ret (X : Externals) (p s : List Byte) :
    (bcrypt_hashpw X p s).ret = if (X.crypt_rn p s X.BCRYPT_HASHSIZE).isNull then 1 else 0 := rfl

theorem hashpw_buf (X : Externals) (p s : List Byte) :
    (bcrypt_hashpw X p s).buf = (X.crypt_rn p s X.BCRYPT_HASHSIZE).buf := rfl

theorem hashpw_ret_eq_zero (X : Externals) (p s : List Byte) :
    (bcrypt_hashpw X p s).ret = 0 ↔ (X.crypt_rn p s X.BCRYPT_HASHSIZE).isNull = false := by
  rw [hashpw_ret]
  cases (X.crypt_rn p s X.BCRYPT_HASHSIZE).isNull <;> simp

theorem checkpw_of_fail (X : Externals) (p h : List Byte) (hf : (bcrypt_hashpw X p h).ret ≠ 0) :
    (bcrypt_checkpw X p h).ret = -1 := by
  unfold bcrypt_checkpw
  simp [hf]

theorem checkpw_of_ok (X : Externals) (p h : List Byte) (hf : (bcrypt_hashpw X p h).ret = 0) :
    (bcrypt_checkpw X p h).ret = timing_safe_strcmp h (bcrypt_hashpw X p h).buf := by
  unfold bcrypt_checkpw
  simp [hf]

theorem checkpw_calls (X : Externals) (p h : List Byte) :
    (bcrypt_checkpw X p h).calls = [Call.crypt_rn p h X.BCRYPT_HASHSIZE] := by
  unfold bcrypt_checkpw
  by_cases hf : (bcrypt_hashpw X p h).ret = 0
  · simp [hf]; rfl
  · simp [hf]; rfl

/-! ## Facts about the reference instance -/

theorem letterOf_ne_zero (b : Byte) : letterOf b ≠ 0 := by
  intro h
  have := congrArg Fin.val h
  simp [letterOf, byteOf] at this
  omega

theorem cstr_of_nonzero (l : List Byte) (h : ∀ x ∈ l, x ≠ 0) : cstr l = l := by
  unfold cstr
  rw [List.takeWhile_eq_self_iff]
  intro x hx
  simpa using h x hx

theorem mem_cstr_ne_zero (l : List Byte) : ∀ x ∈ cstr l, x ≠ 0 := by
  intro x hx
  unfold cstr at hx
  simpa using List.mem_takeWhile_imp hx

theorem model_crypt_rn_rehash (key setting : List Byte) (size : Int)
    (h : (model_crypt_rn key setting size).isNull = false) :
    model_crypt_rn key (model_crypt_rn key setting size).buf size
      = model_crypt_rn key setting size := by
  by_cases hc : ((cstr setting).take 29).length = 29 ∧ ((cstr setting).take 29).take 4 = tag2a ∧
      isDigit (((cstr setting).take 29).getD 4 0) = true ∧
      isDigit (((cstr setting).take 29).getD 5 0) = true ∧
      ((cstr setting).take 29).getD 6 0 = 36 ∧ 61 ≤ size
  · have hout : model_crypt_rn key setting size = ⟨false, (cstr setting).take 29 ++
        List.replicate 31 (letterOf (byteOf (((cstr key).map Fin.val).sum
          + (((cstr setting).take 29).map Fin.val).sum)))⟩ := by
      unfold model_crypt_rn
      simp only [hc, and_self, if_true]
    have hnz : ∀ x ∈ (cstr setting).take 29 ++
        List.replicate 31 (letterOf (byteOf (((cstr key).map Fin.val).sum
          + (((cstr setting).take 29).map Fin.val).sum))), x ≠ 0 := by
      intro x hx
      rcases List.mem_append.1 hx with hx | hx
      · exact mem_cstr_ne_zero setting x (List.mem_of_mem_take hx)
      · rw [(List.mem_replicate.1 hx).2]
        exact letterOf_ne_zero _
    have hd : (cstr ((cstr setting).take 29 ++
        List.replicate 31 (letterOf (byteOf (((cstr key).map Fin.val).sum
          + (((cstr setting).take 29).map Fin.val).sum))))).take 29 = (cstr setting).take 29 := by
      rw [cstr_of_nonzero _ hnz]
      exact List.take_left' hc.1
    rw [hout]
    simp only
    unfold model_crypt_rn
    simp only [hd, hc, and_self, if_true]
  · have : (model_crypt_rn key setting size).isNull = true := by
      unfold model_crypt_rn
      simp only [hc, if_false]
    rw [this] at h
    cases h

theorem modelX_rederives : RederivesSalt modelX := by
  intro p s h
  have hr := model_crypt_rn_rehash p s modelX.BCRYPT_HASHSIZE h
  change (model_crypt_rn p (model_crypt_rn p s modelX.BCRYPT_HASHSIZE).buf
      modelX.BCRYPT_HASHSIZE).isNull = false ∧
    cstr (model_crypt_rn p (model_crypt_rn p s modelX.BCRYPT_HASHSIZE).buf
      modelX.BCRYPT_HASHSIZE).buf = cstr (model_crypt_rn p s modelX.BCRYPT_HASHSIZE).buf
  rw [hr]
  exact ⟨h, rfl⟩

theorem model_base64_calc_strlen (d : List Byte) (n : Nat) :
    strlen (model_base64_calc d n) = 4 * ((n + 2) / 3) := by
  rw [← length_cstr, cstr_of_nonzero]
  · simp [model_base64_calc]
  · intro x hx
    unfold model_base64_calc at hx
    obtain ⟨i, _, rfl⟩ := List.mem_map.1 hx
    exact letterOf_ne_zero _

theorem workFactor_eq (X : Externals) (factor : Int) :
    workFactor X factor
      = if 4 ≤ factor ∧ factor ≤ 31 then factor else X.BCRYPT_DEFAULT_WORK_FACTOR := by
  unfold workFactor
  by_cases h : 4 ≤ factor ∧ factor ≤ 31
  · rw [if_pos h, if_neg (by omega)]
  · rw [if_neg h, if_pos (by omega)]

/-! ## Strings longer than an `int` can count -/

/-- C7: for strings of length below 2^31, `timing_safe_strcmp` returns 0 exactly
when the two strings are byte-for-byte equal; for strings of equal length it
returns 0 exactly when every byte pair agrees; for strings of different lengths
it returns exactly 1 and its loop reads no byte. -/
theorem timing_safe_strcmp_zero_iff_equal (a b : List Byte)
    (ha : strlen a < 2 ^ 31) (hb : strlen b < 2 ^ 31) :
    (timing_safe_strcmp a b = 0 ↔ cstr a = cstr b) ∧
    (strlen a = strlen b →
      (timing_safe_strcmp a b = 0 ↔ ∀ i, i < strlen a → a.getD i 0 = b.getD i 0)) ∧
    (strlen a ≠ strlen b → timing_safe_strcmp_run a b = (1, [])) := by
  refine ⟨strcmp_eq_zero_iff a b ha hb, ?_, run_of_len_ne a b ha hb⟩
  intro h
  rw [strcmp_eq_zero_iff a b ha hb, cstr_eq_iff]
  simp only [h, true_and, byteAt_eq_iff]

/-- A concrete instance of C7: `"ab"` against `"ab"`, NUL-terminated inside
larger buffers with different bytes after the terminator. -/
theorem timing_safe_strcmp_zero_iff_equal_witness :
    (timing_safe_strcmp [97, 98, 0, 1] [97, 98, 0, 2] = 0
      ↔ cstr [97, 98, 0, 1] = cstr [97, 98, 0, 2]) ∧
    (strlen [97, 98, 0, 1] = strlen [97, 98, 0, 2] →
      (timing_safe_strcmp [97, 98, 0, 1] [97, 98, 0, 2] = 0
        ↔ ∀ i, i < strlen [97, 98, 0, 1] →
            ([97, 98, 0, 1] : List Byte).getD i 0 = ([97, 98, 0, 2] : List Byte).getD i 0)) ∧
    (strlen [97, 98, 0, 1] ≠ strlen [97, 98, 0, 2] →
      timing_safe_strcmp_run [97, 98, 0, 1] [97, 98, 0, 2] = (1, [])) :=
  timing_safe_strcmp_zero_iff_equal [97, 98, 0, 1] [97, 98, 0, 2] (by decide) (by decide)

/-- Within the range of an `int` length: for strings of equal length `n` below
2^31, `timing_safe_strcmp` returns the bitwise OR over all `i < n` of `a[i] XOR b[i]`, a value in
`0..255`; its loop reads the indices `0, 1, .., n-1` in order, one per
iteration, so `n` iterations; and the indices read are the same for every
other pair of strings of that length, whatever their contents. -/
theorem strcmp_or_of_xor_in_int_range (a b : List Byte) (n : Nat)
    (ha : strlen a = n) (hb : strlen b = n) (hn : n < 2 ^ 31) :
    timing_safe_strcmp a b = ((orXorFrom a b 0 n : Nat) : Int) ∧
    orXorFrom a b 0 n ≤ 255 ∧
    (timing_safe_strcmp_run a b).2 = List.range n ∧
    (timing_safe_strcmp_run a b).2.length = n ∧
    (∀ c d : List Byte, strlen c = n → strlen d = n →
      (timing_safe_strcmp_run c d).2 = (timing_safe_strcmp_run a b).2) := by
  have hab : strlen a = strlen b := by rw [ha, hb]
  have hrun := run_of_len_eq a b (by omega) hab
  rw [ha] at hrun
  refine ⟨?_, ?_, ?_, ?_, ?_⟩
  · unfold timing_safe_strcmp; rw [hrun]
  · have := orXorFrom_lt a b n 0; omega
  · rw [hrun]
  · rw [hrun]; simp
  · intro c d hc hd
    have hcd : strlen c = strlen d := by rw [hc, hd]
    have hrun2 := run_of_len_eq c d (by omega) hcd
    rw [hc] at hrun2
    rw [hrun, hrun2]

/-- C1: `bcrypt_checkpw` makes exactly one external call, `crypt_rn` with the
stored hash as the setting argument, and, for strings of length below 2^31, it
returns 0 exactly when that rehash succeeds and the recomputed hash string is
byte-for-byte equal to the stored hash string. -/
theorem bcrypt_checkpw_zero_iff (X : Externals) (passwd hash : List Byte)
    (h1 : strlen hash < 2 ^ 31) (h2 : strlen (bcrypt_hashpw X passwd hash).buf < 2 ^ 31) :
    (bcrypt_checkpw X passwd hash).calls = [Call.crypt_rn passwd hash X.BCRYPT_HASHSIZE] ∧
    ((bcrypt_checkpw X passwd hash).ret = 0 ↔
      (bcrypt_hashpw X passwd hash).ret = 0 ∧
        cstr (bcrypt_hashpw X passwd hash).buf = cstr hash) := by
  constructor
  · exact checkpw_calls X passwd hash
  · by_cases hf : (bcrypt_hashpw X passwd hash).ret = 0
    · rw [checkpw_of_ok X passwd hash hf, strcmp_eq_zero_iff hash _ h1 h2]
      simp only [hf, true_and]
      exact eq_comm
    · rw [checkpw_of_fail X passwd hash hf]
      simp [hf]

/-- A concrete instance of C1: the password `"pw"` against its own hash under
the reference instance. -/
theorem bcrypt_checkpw_zero_iff_witness :
    (bcrypt_checkpw modelX pw goodHash).calls
      = [Call.crypt_rn pw goodHash modelX.BCRYPT_HASHSIZE] ∧
    ((bcrypt_checkpw modelX pw goodHash).ret = 0 ↔
      (bcrypt_hashpw modelX pw goodHash).ret = 0 ∧
        cstr (bcrypt_hashpw modelX pw goodHash).buf = cstr goodHash) :=
  bcrypt_checkpw_zero_iff modelX pw goodHash (by decide) (by decide)

/-- C2: round trip.  When `crypt_rn` satisfies its contract `RederivesSalt`,
`bcrypt_gensalt` succeeds with salt `s` and `bcrypt_hashpw(p, s)` succeeds with
hash `h`, then `bcrypt_checkpw(p, h)` returns 0, for every password, work
factor and prior buffer contents. -/
theorem bcrypt_checkpw_roundtrip (X : Externals) (factor : Int) (salt0 passwd : List Byte)
    (hc : RederivesSalt X)
    (_hg : (bcrypt_gensalt X factor salt0).ret = 0)
    (hh : (bcrypt_hashpw X passwd (bcrypt_gensalt X factor salt0).buf).ret = 0) :
    (bcrypt_checkpw X passwd
      (bcrypt_hashpw X passwd (bcrypt_gensalt X factor salt0).buf).buf).ret = 0 := by
  have hnn := (hashpw_ret_eq_zero X passwd _).1 hh
  obtain ⟨hre, heq⟩ := hc passwd (bcrypt_gensalt X factor salt0).buf hnn
  rw [hashpw_buf]
  have hok : (bcrypt_hashpw X passwd
      (X.crypt_rn passwd (bcrypt_gensalt X factor salt0).buf X.BCRYPT_HASHSIZE).buf).ret = 0 :=
    (hashpw_ret_eq_zero X passwd _).2 hre
  rw [checkpw_of_ok X passwd _ hok, hashpw_buf]
  exact strcmp_of_cstr_eq _ _ heq.symm

/-- A concrete instance of C2: the reference instance, work factor 12 and the
password `"pw"`. -/
theorem bcrypt_checkpw_roundtrip_witness :
    (bcrypt_checkpw modelX pw
      (bcrypt_hashpw modelX pw (bcrypt_gensalt modelX 12 []).buf).buf).ret = 0 :=
  bcrypt_checkpw_roundtrip modelX 12 [] pw modelX_rederives (by decide) (by decide)

/-- The return values of `bcrypt_checkpw`: it returns -1 exactly when the rehash (`bcrypt_hashpw`)
fails; a failed rehash is never reported as 0; and, for strings of length below
2^31, a successful rehash that does not match gives a value in `1..255`. -/
theorem checkpw_error_iff_in_int_range (X : Externals) (passwd hash : List Byte) :
    ((bcrypt_checkpw X passwd hash).ret = -1 ↔ (bcrypt_hashpw X passwd hash).ret ≠ 0) ∧
    ((bcrypt_hashpw X passwd hash).ret ≠ 0 → (bcrypt_checkpw X passwd hash).ret ≠ 0) ∧
    (strlen hash < 2 ^ 31 → strlen (bcrypt_hashpw X passwd hash).buf < 2 ^ 31 →
      (bcrypt_hashpw X passwd hash).ret = 0 →
      cstr (bcrypt_hashpw X passwd hash).buf ≠ cstr hash →
      1 ≤ (bcrypt_checkpw X passwd hash).ret ∧ (bcrypt_checkpw X passwd hash).ret ≤ 255) := by
  refine ⟨?_, ?_, ?_⟩
  · by_cases hf : (bcrypt_hashpw X passwd hash).ret = 0
    · rw [checkpw_of_ok X passwd hash hf]
      have := strcmp_nonneg hash (bcrypt_hashpw X passwd hash).buf
      simp only [hf, ne_eq, not_true_eq_false, iff_false]
      omega
    · simp [checkpw_of_fail X passwd hash hf, hf]
  · intro hf
    rw [checkpw_of_fail X passwd hash hf]
    decide
  · intro h1 h2 hf hne
    rw [checkpw_of_ok X passwd hash hf]
    have hr := strcmp_range hash _ h1 h2
    have hz : timing_safe_strcmp hash (bcrypt_hashpw X passwd hash).buf ≠ 0 := by
      rw [Ne, strcmp_eq_zero_iff hash _ h1 h2]
      exact fun h => hne h.symm
    omega

/-- C4, as stated, fails: in the reference instance the stored hash `longHash`
(the text `$2a$12$DKRYFMTAHOVCJQXEAAAAAA`, 31 times `X`, then `A`) has the wrong
length (61 characters, a genuine hash has 60), yet `bcrypt_checkpw` with the
password `"pw"` returns the plain mismatch value 1, not the error value -1. -/
theorem bcrypt_checkpw_wrong_length_is_mismatch :
    longHash = [36, 50, 97, 36, 49, 50, 36, 68, 75, 82, 89, 70, 77, 84, 65, 72, 79, 86, 67, 74,
      81, 88, 69, 65, 65, 65, 65, 65, 65] ++ List.replicate 31 88 ++ [65] ∧
    strlen goodHash = 60 ∧ strlen longHash = 61 ∧
    (bcrypt_checkpw modelX pw longHash).ret = 1 ∧
    (bcrypt_checkpw modelX pw longHash).ret ≠ -1 := by
  decide

/-- C4, amended: a stored hash on which the rehash fails (`crypt_rn` returns
NULL) yields the error value -1; a stored hash on which the rehash succeeds
and whose length differs from that of the recomputed hash yields the plain
mismatch value 1; and no stored hash whose text differs from the recomputed
hash, so no malformed one, yields 0 (strings of length below 2^31). -/
theorem bcrypt_checkpw_malformed (X : Externals) (passwd hash : List Byte) :
    ((X.crypt_rn passwd hash X.BCRYPT_HASHSIZE).isNull = true →
      (bcrypt_checkpw X passwd hash).ret = -1) ∧
    ((X.crypt_rn passwd hash X.BCRYPT_HASHSIZE).isNull = false →
      strlen hash < 2 ^ 31 → strlen (X.crypt_rn passwd hash X.BCRYPT_HASHSIZE).buf < 2 ^ 31 →
      strlen hash ≠ strlen (X.crypt_rn passwd hash X.BCRYPT_HASHSIZE).buf →
      (bcrypt_checkpw X passwd hash).ret = 1) ∧
    (strlen hash < 2 ^ 31 → strlen (X.crypt_rn passwd hash X.BCRYPT_HASHSIZE).buf < 2 ^ 31 →
      (bcrypt_checkpw X passwd hash).ret = 0 →
      (X.crypt_rn passwd hash X.BCRYPT_HASHSIZE).isNull = false ∧
        cstr hash = cstr (X.crypt_rn passwd hash X.BCRYPT_HASHSIZE).buf) := by
  refine ⟨?_, ?_, ?_⟩
  · intro hn
    apply checkpw_of_fail
    rw [hashpw_ret, hn]
    decide
  · intro hn h1 h2 hl
    rw [checkpw_of_ok X passwd hash ((hashpw_ret_eq_zero X passwd hash).2 hn), hashpw_buf]
    unfold timing_safe_strcmp
    rw [run_of_len_ne _ _ h1 h2 hl]
  · intro h1 h2 hz
    by_cases hf : (bcrypt_hashpw X passwd hash).ret = 0
    · rw [checkpw_of_ok X passwd hash hf, hashpw_buf, strcmp_eq_zero_iff _ _ h1 h2] at hz
      exact ⟨(hashpw_ret_eq_zero X passwd hash).1 hf, hz⟩
    · rw [checkpw_of_fail X passwd hash hf] at hz
      cases hz

/-- A concrete instance of the amended C4: in the reference instance the
stored hash with a corrupted tag is rejected by the primitive and yields -1,
and the stored hash of wrong length yields the plain mismatch 1. -/
theorem bcrypt_checkpw_malformed_witness :
    (bcrypt_checkpw modelX pw badTagHash).ret = -1 ∧
    (bcrypt_checkpw modelX pw longHash).ret = 1 :=
  ⟨(bcrypt_checkpw_malformed modelX pw badTagHash).1 (by decide),
   (bcrypt_checkpw_malformed modelX pw longHash).2.1
     (by decide) (by decide) (by decide) (by decide)⟩

/-! ## Salt generation -/

/-- C5: the work factor handed to `crypt_gensalt_rn` is `factor` itself when
`4 ≤ factor ≤ 31` and `BCRYPT_DEFAULT_WORK_FACTOR` when `factor < 4` or
`factor > 31`; whenever entropy is delivered the formatter is called once, with
that work factor; and for an out-of-range factor the whole outcome of
`bcrypt_gensalt` (return code, salt, calls) is the outcome of the call with the
default factor, so it is the same for every out-of-range value and the range
violation by itself produces no error. -/
theorem bcrypt_gensalt_work_factor (X : Externals) (factor : Int) (salt : List Byte) :
    (4 ≤ factor ∧ factor ≤ 31 → workFactor X factor = factor) ∧
    (factor < 4 ∨ factor > 31 → workFactor X factor = X.BCRYPT_DEFAULT_WORK_FACTOR) ∧
    ((X.getentropy RANDBYTES).1 = 0 →
      (bcrypt_gensalt X factor salt).calls =
        [Call.getentropy 16,
         Call.crypt_gensalt_rn tag2a
           (if 4 ≤ factor ∧ factor ≤ 31 then factor else X.BCRYPT_DEFAULT_WORK_FACTOR)
           (X.getentropy 16).2 16 X.BCRYPT_HASHSIZE]) ∧
    (factor < 4 ∨ factor > 31 →
      bcrypt_gensalt X factor salt = bcrypt_gensalt X X.BCRYPT_DEFAULT_WORK_FACTOR salt) ∧
    (factor < 4 ∨ factor > 31 → ∀ other : Int, other < 4 ∨ other > 31 →
      bcrypt_gensalt X factor salt = bcrypt_gensalt X other salt) := by
  have hin : 4 ≤ factor ∧ factor ≤ 31 → workFactor X factor = factor := by
    intro h
    unfold workFactor
    rw [if_neg (by omega)]
  have hout : ∀ f : Int, f < 4 ∨ f > 31 → workFactor X f = X.BCRYPT_DEFAULT_WORK_FACTOR := by
    intro f h
    unfold workFactor
    rw [if_pos h]
  have hdef : workFactor X X.BCRYPT_DEFAULT_WORK_FACTOR = X.BCRYPT_DEFAULT_WORK_FACTOR := by
    unfold workFactor
    split <;> rfl
  refine ⟨hin, hout factor, ?_, ?_, ?_⟩
  · intro he
    have hw : workFactor X factor
        = if 4 ≤ factor ∧ factor ≤ 31 then factor else X.BCRYPT_DEFAULT_WORK_FACTOR := by
      by_cases h : 4 ≤ factor ∧ factor ≤ 31
      · rw [if_pos h, hin h]
      · rw [if_neg h, hout factor (by omega)]
    unfold bcrypt_gensalt
    simp only [he, ne_eq, not_true_eq_false, if_false, hw]
    rfl
  · intro h
    unfold bcrypt_gensalt
    rw [hout factor h, hdef]
  · intro h other ho
    unfold bcrypt_gensalt
    rw [hout factor h, hout other ho]

/-- A concrete instance of C5 in the reference instance: factor 12 is handed
on unchanged, factor 99 is replaced by the default, and the outcome for 99 is
the outcome for -7. -/
theorem bcrypt_gensalt_work_factor_witness :
    workFactor modelX 12 = 12 ∧
    workFactor modelX 99 = modelX.BCRYPT_DEFAULT_WORK_FACTOR ∧
    (bcrypt_gensalt modelX 99 []).calls =
      [Call.getentropy 16,
       Call.crypt_gensalt_rn tag2a
         (if (4 : Int) ≤ 99 ∧ (99 : Int) ≤ 31 then 99 else modelX.BCRYPT_DEFAULT_WORK_FACTOR)
         (modelX.getentropy 16).2 16 modelX.BCRYPT_HASHSIZE] ∧
    bcrypt_gensalt modelX 99 [] = bcrypt_gensalt modelX (-7) [] :=
  ⟨(bcrypt_gensalt_work_factor modelX 12 []).1 (by decide),
   (bcrypt_gensalt_work_factor modelX 99 []).2.1 (by decide),
   (bcrypt_gensalt_work_factor modelX 99 []).2.2.1 (by decide),
   (bcrypt_gensalt_work_factor modelX 99 []).2.2.2.2 (by decide) (-7) (by decide)⟩

/-- C6: `bcrypt_gensalt` first requests exactly 16 bytes of entropy; it returns
1 exactly when the entropy source reports failure, and then that request is its
only external call and the salt buffer is unchanged; it returns 2 exactly when
entropy succeeded and `crypt_gensalt_rn` returned NULL; it returns 0 exactly
when both succeeded; and whenever entropy succeeded the formatter is called
once and the salt is the output of `crypt_gensalt_rn` for the tag `"$2a$"`, the
clamped work factor (`factor` when `4 ≤ factor ≤ 31`, otherwise
`BCRYPT_DEFAULT_WORK_FACTOR`), the 16-byte entropy buffer and output size
`BCRYPT_HASHSIZE`. -/
theorem bcrypt_gensalt_outcomes (X : Externals) (factor : Int) (salt : List Byte) :
    (bcrypt_gensalt X factor salt).calls.head? = some (Call.getentropy 16) ∧
    ((bcrypt_gensalt X factor salt).ret = 1 ↔ (X.getentropy 16).1 ≠ 0) ∧
    ((X.getentropy 16).1 ≠ 0 →
      (bcrypt_gensalt X factor salt).calls = [Call.getentropy 16] ∧
      (bcrypt_gensalt X factor salt).buf = salt) ∧
    ((bcrypt_gensalt X factor salt).ret = 2 ↔
      (X.getentropy 16).1 = 0 ∧
      (X.crypt_gensalt_rn [36, 50, 97, 36]
        (if 4 ≤ factor ∧ factor ≤ 31 then factor else X.BCRYPT_DEFAULT_WORK_FACTOR)
        (X.getentropy 16).2 16 X.BCRYPT_HASHSIZE).isNull = true) ∧
    ((bcrypt_gensalt X factor salt).ret = 0 ↔
      (X.getentropy 16).1 = 0 ∧
      (X.crypt_gensalt_rn [36, 50, 97, 36]
        (if 4 ≤ factor ∧ factor ≤ 31 then factor else X.BCRYPT_DEFAULT_WORK_FACTOR)
        (X.getentropy 16).2 16 X.BCRYPT_HASHSIZE).isNull = false) ∧
    ((X.getentropy 16).1 = 0 →
      (bcrypt_gensalt X factor salt).buf =
        (X.crypt_gensalt_rn [36, 50, 97, 36]
          (if 4 ≤ factor ∧ factor ≤ 31 then factor else X.BCRYPT_DEFAULT_WORK_FACTOR)
          (X.getentropy 16).2 16 X.BCRYPT_HASHSIZE).buf ∧
      (bcrypt_gensalt X factor salt).calls =
        [Call.getentropy 16,
         Call.crypt_gensalt_rn [36, 50, 97, 36]
           (if 4 ≤ factor ∧ factor ≤ 31 then factor else X.BCRYPT_DEFAULT_WORK_FACTOR)
           (X.getentropy 16).2 16 X.BCRYPT_HASHSIZE]) := by
  by_cases he : (X.getentropy 16).1 = 0
  · have hg : bcrypt_gensalt X factor salt =
        ⟨if (X.crypt_gensalt_rn [36, 50, 97, 36]
            (if 4 ≤ factor ∧ factor ≤ 31 then factor else X.BCRYPT_DEFAULT_WORK_FACTOR)
            (X.getentropy 16).2 16 X.BCRYPT_HASHSIZE).isNull then 2 else 0,
          (X.crypt_gensalt_rn [36, 50, 97, 36]
            (if 4 ≤ factor ∧ factor ≤ 31 then factor else X.BCRYPT_DEFAULT_WORK_FACTOR)
            (X.getentropy 16).2 16 X.BCRYPT_HASHSIZE).buf,
          [Call.getentropy 16,
           Call.crypt_gensalt_rn [36, 50, 97, 36]
             (if 4 ≤ factor ∧ factor ≤ 31 then factor else X.BCRYPT_DEFAULT_WORK_FACTOR)
             (X.getentropy 16).2 16 X.BCRYPT_HASHSIZE]⟩ := by
      rw [← workFactor_eq X factor]
      unfold bcrypt_gensalt
      simp only [RANDBYTES, he, ne_eq, not_true_eq_false, if_false]
      rfl
    rw [hg]
    cases (X.crypt_gensalt_rn [36, 50, 97, 36]
      (if 4 ≤ factor ∧ factor ≤ 31 then factor else X.BCRYPT_DEFAULT_WORK_FACTOR)
      (X.getentropy 16).2 16 X.BCRYPT_HASHSIZE).isNull <;> simp [he]
  · have hg : bcrypt_gensalt X factor salt = ⟨1, salt, [Call.getentropy 16]⟩ := by
      unfold bcrypt_gensalt
      simp only [RANDBYTES, he, ne_eq, not_false_eq_true, if_true]
    rw [hg]
    simp [he]

/-- A concrete instance of C6: with the failing entropy source the salt buffer
`[1, 2, 3]` is left as it was and the formatter is not called; in the reference
instance, for the out-of-range factor 99, the formatter is called with the
default work factor 10 and the salt is its output. -/
theorem bcrypt_gensalt_outcomes_witness :
    ((bcrypt_gensalt modelX_noEntropy 12 [1, 2, 3]).calls = [Call.getentropy 16] ∧
      (bcrypt_gensalt modelX_noEntropy 12 [1, 2, 3]).buf = [1, 2, 3]) ∧
    ((bcrypt_gensalt modelX 99 []).buf =
        (modelX.crypt_gensalt_rn [36, 50, 97, 36]
          (if (4 : Int) ≤ 99 ∧ (99 : Int) ≤ 31 then 99 else modelX.BCRYPT_DEFAULT_WORK_FACTOR)
          (modelX.getentropy 16).2 16 modelX.BCRYPT_HASHSIZE).buf ∧
      (bcrypt_gensalt modelX 99 []).calls =
        [Call.getentropy 16,
         Call.crypt_gensalt_rn [36, 50, 97, 36]
           (if (4 : Int) ≤ 99 ∧ (99 : Int) ≤ 31 then 99 else modelX.BCRYPT_DEFAULT_WORK_FACTOR)
           (modelX.getentropy 16).2 16 modelX.BCRYPT_HASHSIZE]) :=
  ⟨(bcrypt_gensalt_outcomes modelX_noEntropy 12 [1, 2, 3]).2.2.1 (by decide),
   (bcrypt_gensalt_outcomes modelX 99 []).2.2.2.2.2 (by decide)⟩

/-! ## Password hashing -/

/-- C8: `bcrypt_hashpw` makes exactly one external call, `crypt_rn` with the
password, the whole salt text and output size `BCRYPT_HASHSIZE`; the hash
buffer holds the output of that call; it returns 0 exactly when `crypt_rn`
succeeds and 1 exactly when `crypt_rn` returns NULL; and two calls with
identical password and salt give the identical return code and hash text. -/
theorem bcrypt_hashpw_contract (X : Externals) (passwd salt : List Byte) :
    (bcrypt_hashpw X passwd salt).calls = [Call.crypt_rn passwd salt X.BCRYPT_HASHSIZE] ∧
    (bcrypt_hashpw X passwd salt).buf = (X.crypt_rn passwd salt X.BCRYPT_HASHSIZE).buf ∧
    ((bcrypt_hashpw X passwd salt).ret = 0 ↔
      (X.crypt_rn passwd salt X.BCRYPT_HASHSIZE).isNull = false) ∧
    ((bcrypt_hashpw X passwd salt).ret = 1 ↔
      (X.crypt_rn passwd salt X.BCRYPT_HASHSIZE).isNull = true) ∧
    (∀ passwd2 salt2 : List Byte, passwd2 = passwd → salt2 = salt →
      (bcrypt_hashpw X passwd2 salt2).ret = (bcrypt_hashpw X passwd salt).ret ∧
      (bcrypt_hashpw X passwd2 salt2).buf = (bcrypt_hashpw X passwd salt).buf) := by
  refine ⟨rfl, rfl, hashpw_ret_eq_zero X passwd salt, ?_, ?_⟩
  · rw [hashpw_ret]
    cases (X.crypt_rn passwd salt X.BCRYPT_HASHSIZE).isNull <;> simp
  · rintro passwd2 salt2 rfl rfl
    exact ⟨rfl, rfl⟩

/-- A concrete instance of C8: hashing `"pw"` under `goodSalt` twice in the
reference instance. -/
theorem bcrypt_hashpw_contract_witness :
    (bcrypt_hashpw modelX [112, 119] goodSalt).ret = (bcrypt_hashpw modelX pw goodSalt).ret ∧
    (bcrypt_hashpw modelX [112, 119] goodSalt).buf = (bcrypt_hashpw modelX pw goodSalt).buf :=
  (bcrypt_hashpw_contract modelX pw goodSalt).2.2.2.2 [112, 119] goodSalt (by decide) rfl

/-! ## Digest and encode -/

/-- C9: for an input whose length is a `size_t` value, `size_t` being no wider
than `unsigned long` and `unsigned long long`, `bcrypt_sha512_base64` and
`bcrypt_sha3_512_base64` return 0 and write `base64_calc` of the 64-byte digest
buffer filled by the digest function for `(in, strlen(in))`, whatever the
prior contents of the output buffer; and when the encoder's output length for
64 bytes is a fixed `L`, the text written has length `L` for every input. -/
theorem bcrypt_digest_base64 (X : Externals) (inp digest : List Byte)
    (hlen : strlen inp ≤ X.SIZE_MAX) (h1 : X.SIZE_MAX ≤ X.ULONG_MAX)
    (h2 : X.SIZE_MAX ≤ X.ULLONG_MAX) :
    bcrypt_sha512_base64 X inp digest =
      ⟨0, X.base64_calc (X.sha512_calc inp (strlen inp)) 64,
        [Call.sha512_calc inp (strlen inp),
         Call.base64_calc (X.sha512_calc inp (strlen inp)) 64]⟩ ∧
    bcrypt_sha3_512_base64 X inp digest =
      ⟨0, X.base64_calc (X.FIPS202_SHA3_512 inp (strlen inp)) 64,
        [Call.FIPS202_SHA3_512 inp (strlen inp),
         Call.base64_calc (X.FIPS202_SHA3_512 inp (strlen inp)) 64]⟩ ∧
    (∀ L : Nat, (∀ d : List Byte, strlen (X.base64_calc d 64) = L) →
      strlen (bcrypt_sha512_base64 X inp digest).buf = L ∧
      strlen (bcrypt_sha3_512_base64 X inp digest).buf = L) := by
  have e1 : bcrypt_sha512_base64 X inp digest =
      ⟨0, X.base64_calc (X.sha512_calc inp (strlen inp)) 64,
        [Call.sha512_calc inp (strlen inp),
         Call.base64_calc (X.sha512_calc inp (strlen inp)) 64]⟩ := by
    unfold bcrypt_sha512_base64
    have hg : ¬ (strlen inp > X.ULONG_MAX) := by omega
    have hm : strlen inp % (X.ULONG_MAX + 1) = strlen inp := Nat.mod_eq_of_lt (by omega)
    simp only [hg, if_false, hm, BYTES_IN_512BITS]
  have e2 : bcrypt_sha3_512_base64 X inp digest =
      ⟨0, X.base64_calc (X.FIPS202_SHA3_512 inp (strlen inp)) 64,
        [Call.FIPS202_SHA3_512 inp (strlen inp),
         Call.base64_calc (X.FIPS202_SHA3_512 inp (strlen inp)) 64]⟩ := by
    unfold bcrypt_sha3_512_base64
    have hg : ¬ (strlen inp > X.ULLONG_MAX) := by omega
    have hm : strlen inp % (X.ULLONG_MAX + 1) = strlen inp := Nat.mod_eq_of_lt (by omega)
    simp only [hg, if_false, hm, BYTES_IN_512BITS]
  refine ⟨e1, e2, ?_⟩
  intro L hL
  rw [e1, e2]
  exact ⟨hL _, hL _⟩

/-- A concrete instance of C9: the empty string in the reference instance,
with an output buffer that held `[9, 9]` before the call. -/
theorem bcrypt_digest_base64_witness :
    bcrypt_sha512_base64 modelX [] [9, 9] =
      ⟨0, modelX.base64_calc (modelX.sha512_calc [] (strlen [])) 64,
        [Call.sha512_calc [] (strlen []),
         Call.base64_calc (modelX.sha512_calc [] (strlen [])) 64]⟩ ∧
    bcrypt_sha3_512_base64 modelX [] [9, 9] =
      ⟨0, modelX.base64_calc (modelX.FIPS202_SHA3_512 [] (strlen [])) 64,
        [Call.FIPS202_SHA3_512 [] (strlen []),
         Call.base64_calc (modelX.FIPS202_SHA3_512 [] (strlen [])) 64]⟩ ∧
    strlen (bcrypt_sha512_base64 modelX [] [9, 9]).buf = 88 ∧
    strlen (bcrypt_sha3_512_base64 modelX [] [9, 9]).buf = 88 :=
  have h := bcrypt_digest_base64 modelX [] [9, 9] (by decide) (by decide) (by decide)
  ⟨h.1, h.2.1, h.2.2 88 (fun d => model_base64_calc_strlen d 64)⟩

end Bcrypt
